import Mathlib

/-!
Shallow embedding of the Burn-At-The-Stake CosmWasm contract (src/src/lib.rs)
and proofs about its staking registry, lottery draw, reward settlement and
eligibility query.

Modelling conventions:
- Addresses are strings (cosmwasm Addr / String keys).
- Timestamps are natural numbers counting nanoseconds (cosmwasm Timestamp);
  Timestamp.seconds() is division by 10^9, Timestamp.plus_seconds adds s * 10^9.
- Uint128 and u64 values are naturals; u64 arithmetic in the contract is
  modelled with explicit checked operations, an overflow or underflow yielding
  the abort outcome (Rust panic under overflow checks), matching the cosmwasm
  convention of compiling with overflow checks enabled.
- The cw-storage-plus Map "stakers" is an association list sorted ascending by
  key (the storage iterates keys in ascending byte order); may_load is lookup,
  save is an order-preserving insert-or-replace, remove deletes the key.
- The HashSet of staked addresses in State is a duplicate-free list whose order
  stands for the (unspecified) hash-set iteration order; insert appends if
  absent, remove erases. Set-level claims only use membership, while the draw
  indexes into the iteration order exactly as the Rust code does.
- A handler returns ok (new storage, response), err (StdResult error), or
  abort (a Rust panic: arithmetic overflow or out-of-bounds indexing).
- Responses keep the structured message and attribute data; JSON serialization
  is outside the model. Attribute values are rendered to strings with toString
  as the Rust add_attribute does.
-/

namespace BurnAtTheStake

abbrev Addr := String

/-- Nanoseconds per second, for the cosmwasm Timestamp model. -/
def NANOS_PER_SECOND : Nat := 1000000000

/-- Timestamp.seconds(): truncating conversion from nanoseconds to seconds. -/
def tsSeconds (t : Nat) : Nat := t / NANOS_PER_SECOND

/-- Timestamp.plus_seconds(s). -/
def tsPlusSeconds (t s : Nat) : Nat := t + s * NANOS_PER_SECOND

/-- const MIN_STAKING_DAYS: u64 = 7. -/
def MIN_STAKING_DAYS : Nat := 7

/-- const SECONDS_IN_DAY: u64 = 86400. -/
def SECONDS_IN_DAY : Nat := 86400

/-- Largest u64 value. -/
def U64_LIMIT : Nat := 18446744073709551615

/-- Checked u64 addition: none models a Rust overflow panic. -/
def u64CheckedAdd (a b : Nat) : Option Nat :=
  if a + b ≤ U64_LIMIT then some (a + b) else none

/-- Checked u64 subtraction: none models a Rust underflow panic. -/
def u64CheckedSub (a b : Nat) : Option Nat :=
  if b ≤ a then some (a - b) else none

/-- struct Staker: staked_at timestamp (nanoseconds) and nft_count. -/
structure Staker where
  staked_at : Nat
  nft_count : Nat
deriving DecidableEq, Repr

/-- struct Config: immutable contract settings. -/
structure Config where
  admin : Addr
  nft_contract : Addr
  reward_token : Addr
deriving DecidableEq, Repr

/-- struct State: the aggregate contract state. The stakers list models the
HashSet of staked addresses together with its iteration order. -/
structure State where
  total_staked : Nat
  current_pot : Nat
  last_winner : Option Addr
  stakers : List Addr
deriving DecidableEq, Repr

/-- Lexicographic strict order on character lists by code point. -/
def charListLt : List Char → List Char → Bool
  | [], [] => false
  | [], _ :: _ => true
  | _ :: _, [] => false
  | c :: cs, d :: ds =>
    if c.toNat < d.toNat then true
    else if d.toNat < c.toNat then false
    else charListLt cs ds

/-- Strict order on addresses: code-point lexicographic order, which agrees
with the UTF-8 byte order that cw-storage-plus uses for map keys. -/
def addrLt (a b : Addr) : Bool := charListLt a.data b.data

/-- The STAKERS map: an association list sorted ascending by address. -/
abbrev StakersMap := List (Addr × Staker)

/-- Map.may_load: lookup by key. -/
def mapGet (m : StakersMap) (k : Addr) : Option Staker :=
  match m with
  | [] => none
  | (k₁, v₁) :: rest => if k = k₁ then some v₁ else mapGet rest k

/-- Map.save: insert or replace, keeping the list sorted by key. -/
def mapSave (m : StakersMap) (k : Addr) (v : Staker) : StakersMap :=
  match m with
  | [] => [(k, v)]
  | (k₁, v₁) :: rest =>
    if addrLt k k₁ then (k, v) :: (k₁, v₁) :: rest
    else if k = k₁ then (k, v) :: rest
    else (k₁, v₁) :: mapSave rest k v

/-- Map.remove: delete a key. -/
def mapRemove (m : StakersMap) (k : Addr) : StakersMap :=
  match m with
  | [] => []
  | (k₁, v₁) :: rest =>
    if k = k₁ then rest else (k₁, v₁) :: mapRemove rest k

/-- HashSet.insert: membership-preserving insert (position in the iteration
order is irrelevant to every set-level property; we append). -/
def hsInsert (s : List Addr) (a : Addr) : List Addr :=
  if a ∈ s then s else s ++ [a]

/-- HashSet.remove: drop the (unique) occurrence of the address. -/
def hsRemove (s : List Addr) (a : Addr) : List Addr :=
  match s with
  | [] => []
  | b :: rest => if b = a then rest else b :: hsRemove rest a

/-- StdError as produced by this contract (StdError::generic_err). -/
inductive StdError where
  | genericErr : String → StdError
deriving DecidableEq, Repr

/-- Result of running a handler: Ok, Err, or a Rust panic (abort). -/
inductive Outcome (α : Type) where
  | ok : α → Outcome α
  | err : StdError → Outcome α
  | abort : Outcome α
deriving DecidableEq, Repr

/-- A WasmMsg::Execute carrying a Cw20ExecuteMsg::Transfer payload. -/
structure WasmTransferExec where
  contract_addr : Addr
  transfer_recipient : Addr
  transfer_amount : Nat
  funds : List Nat
deriving DecidableEq, Repr

/-- A cosmwasm Response: outgoing messages and attributes. -/
structure Response where
  messages : List WasmTransferExec
  attributes : List (String × String)
deriving DecidableEq, Repr

/-- The whole persisted storage: CONFIG item, STATE item, STAKERS map. -/
structure Storage where
  config : Config
  state : State
  STAKERS : StakersMap
deriving DecidableEq, Repr

/-- execute_stake: load-or-default the staker record, increment nft_count,
save it, insert the sender in the staked set, increment total_staked. -/
def execute_stake (stor : Storage) (block_time : Nat) (sender : Addr) :
    Outcome (Storage × Response) :=
  let staker := (mapGet stor.STAKERS sender).getD
    { staked_at := block_time, nft_count := 0 }
  match u64CheckedAdd staker.nft_count 1 with
  | none => .abort
  | some n =>
    match u64CheckedAdd stor.state.total_staked 1 with
    | none => .abort
    | some t =>
      let state₁ := { stor.state with
        stakers := hsInsert stor.state.stakers sender,
        total_staked := t }
      .ok ({ stor with
               STAKERS := mapSave stor.STAKERS sender { staker with nft_count := n },
               state := state₁ },
           { messages := [],
             attributes := [("action", "stake"), ("sender", sender)] })

/-- execute_unstake: fail when no record; compute the seconds difference with
an unchecked u64 subtraction (abort on underflow); fail when below the
minimum period; decrement nft_count (remove the record at zero);
unconditionally remove the sender from the staked set; decrement
total_staked. -/
def execute_unstake (stor : Storage) (block_time : Nat) (sender : Addr) :
    Outcome (Storage × Response) :=
  match mapGet stor.STAKERS sender with
  | none => .err (.genericErr "Not staked")
  | some staker =>
    match u64CheckedSub (tsSeconds block_time) (tsSeconds staker.staked_at) with
    | none => .abort
    | some time_diff =>
      if time_diff < MIN_STAKING_DAYS * SECONDS_IN_DAY then
        .err (.genericErr "Minimum staking requirement not met")
      else
        match u64CheckedSub staker.nft_count 1 with
        | none => .abort
        | some n =>
          let stakersMap₁ :=
            if n = 0 then mapRemove stor.STAKERS sender
            else mapSave stor.STAKERS sender { staker with nft_count := n }
          match u64CheckedSub stor.state.total_staked 1 with
          | none => .abort
          | some t =>
            let state₁ := { stor.state with
              stakers := hsRemove stor.state.stakers sender,
              total_staked := t }
            .ok ({ stor with STAKERS := stakersMap₁, state := state₁ },
                 { messages := [],
                   attributes := [("action", "unstake"), ("sender", sender)] })

/-- execute_draw_winner: admin-only; picks random_bytes[0] modulo the staker
set size and takes the element at that position of the hash-set iteration
order; records the winner, reports the pot as the prize and zeroes it. -/
def execute_draw_winner (stor : Storage) (sender : Addr)
    (random_bytes : List Nat) : Outcome (Storage × Response) :=
  if sender ≠ stor.config.admin then
    .err (.genericErr "Unauthorized")
  else if stor.state.stakers.isEmpty then
    .err (.genericErr "No stakers to draw from")
  else
    match random_bytes with
    | [] => .abort
    | b :: _ =>
      let random_index := b % stor.state.stakers.length
      match stor.state.stakers.get? random_index with
      | none => .abort
      | some winner =>
        let prize := stor.state.current_pot
        let state₁ := { stor.state with
          last_winner := some winner, current_pot := 0 }
        .ok ({ stor with state := state₁ },
             { messages := [],
               attributes := [("action", "draw_winner"), ("winner", winner),
                              ("prize", toString prize)] })

/-- The response built by a successful claim: one Cw20 Transfer execute
message to the reward token contract, paying the sender the current pot. -/
def claimResponse (stor : Storage) (sender : Addr) : Response :=
  { messages := [{ contract_addr := stor.config.reward_token,
                   transfer_recipient := sender,
                   transfer_amount := stor.state.current_pot,
                   funds := [] }],
    attributes := [("action", "claim_reward"), ("winner", sender),
                   ("amount", toString stor.state.current_pot)] }

/-- execute_claim_reward: fail when no winner recorded or when the sender is
not the recorded winner; otherwise emit the transfer message. The handler
saves nothing back to storage. -/
def execute_claim_reward (stor : Storage) (sender : Addr) :
    Outcome (Storage × Response) :=
  match stor.state.last_winner with
  | none => .err (.genericErr "No winner to claim")
  | some last_winner =>
    if sender ≠ last_winner then
      .err (.genericErr "Not the winner")
    else
      .ok (stor, claimResponse stor sender)

/-- The eligibility test of query_eligible_stakers:
staked_at.plus_seconds(MIN_STAKING_DAYS * SECONDS_IN_DAY) <= block time. -/
def eligibleAt (block_time : Nat) (r : Staker) : Bool :=
  decide (tsPlusSeconds r.staked_at (MIN_STAKING_DAYS * SECONDS_IN_DAY) ≤ block_time)

/-- query_eligible_stakers: ascending range over the STAKERS map, keeping the
records that meet the minimum staking period. Read-only. -/
def query_eligible_stakers (stor : Storage) (block_time : Nat) :
    List (Addr × Staker) :=
  stor.STAKERS.filter (fun p => eligibleAt block_time p.2)

/-- The state written by instantiate. -/
def initState : State :=
  { total_staked := 0, current_pot := 0, last_winner := none, stakers := [] }

/-- Storage right after instantiate with a given config. -/
def initStorage (cfg : Config) : Storage :=
  { config := cfg, state := initState, STAKERS := [] }

/-- A registry operation: a Stake or Unstake call by some sender at some
block time. -/
inductive Op where
  | stake (sender : Addr) (block_time : Nat)
  | unstake (sender : Addr) (block_time : Nat)
deriving DecidableEq, Repr

/-- Run one operation; a failed or aborted call leaves storage unchanged
(the host discards the writes of a failed transaction). -/
def stepOp (stor : Storage) (op : Op) : Storage :=
  match op with
  | .stake sender t =>
    match execute_stake stor t sender with
    | .ok (stor₁, _) => stor₁
    | _ => stor
  | .unstake sender t =>
    match execute_unstake stor t sender with
    | .ok (stor₁, _) => stor₁
    | _ => stor

/-- Run a sequence of operations from a storage. -/
def runOps (stor : Storage) (ops : List Op) : Storage :=
  ops.foldl stepOp stor

/-- Sum of nft_count over all records of the STAKERS map. -/
def sumNfts (m : StakersMap) : Nat :=
  (m.map (fun p => p.2.nft_count)).sum

/-- The STAKERS map is sorted ascending by address, as cw-storage-plus
stores and iterates it. -/
def mapSorted (m : StakersMap) : Prop :=
  m.Pairwise (fun p q => addrLt p.1 q.1 = true)

/-- Winner extracted from a draw outcome, for stating draw results. -/
def drawnWinner (o : Outcome (Storage × Response)) : Option Addr :=
  match o with
  | .ok (stor, _) => stor.state.last_winner
  | _ => none


/-- A fixed config for concrete instances. -/
def cfg0 : Config := { admin := "op", nft_contract := "nft", reward_token := "rwd" }

/-- Seven days in nanoseconds. -/
def WEEK_NANOS : Nat := 604800000000000

/-- Tells whether a handler outcome is Ok. -/
def Outcome.isOk {α : Type} : Outcome α → Bool
  | .ok _ => true
  | _ => false

/-- Storage with one staker holding one NFT and a pot of five. -/
def cstor3 : Storage :=
  { config := cfg0,
    state := { total_staked := 1, current_pot := 5, last_winner := none,
               stakers := ["a"] },
    STAKERS := [("a", { staked_at := 0, nft_count := 1 })] }

/-- Storage cstor3 after a draw: winner recorded, pot zeroed. -/
def cstor3d : Storage :=
  { cstor3 with
    state := { cstor3.state with current_pot := 0, last_winner := some "a" } }

/-- Response of the draw on cstor3. -/
def cresp3 : Response :=
  { messages := [],
    attributes := [("action", "draw_winner"), ("winner", "a"), ("prize", "5")] }

/-- Storage whose only record was created five seconds after the epoch. -/
def cstor5 : Storage :=
  { config := cfg0,
    state := { total_staked := 1, current_pot := 0, last_winner := none,
               stakers := ["a"] },
    STAKERS := [("a", { staked_at := 5000000000, nft_count := 1 })] }

/-- Storage whose only record is exactly old enough to unstake at
WEEK_NANOS. -/
def cstor5b : Storage :=
  { config := cfg0,
    state := { total_staked := 1, current_pot := 0, last_winner := none,
               stakers := ["a"] },
    STAKERS := [("a", { staked_at := 0, nft_count := 1 })] }

/-- Storage with a recorded winner and a pot of nine. -/
def cstor6 : Storage :=
  { config := cfg0,
    state := { total_staked := 0, current_pot := 9, last_winner := some "w",
               stakers := [] },
    STAKERS := [] }

/-- Storage whose record was created nine seconds after the epoch. -/
def cstor7 : Storage :=
  { config := cfg0,
    state := { total_staked := 3, current_pot := 7, last_winner := none,
               stakers := ["b"] },
    STAKERS := [("b", { staked_at := 9000000000, nft_count := 3 })] }

/-- Sorted two-record storage: at time WEEK_NANOS the first record is
eligible and the second is not. -/
def cstor8 : Storage :=
  { config := cfg0,
    state := { total_staked := 2, current_pot := 0, last_winner := none,
               stakers := ["a", "b"] },
    STAKERS := [("a", { staked_at := 0, nft_count := 1 }),
                ("b", { staked_at := WEEK_NANOS, nft_count := 1 })] }

/-- Storage with an existing record for one account holding two NFTs. -/
def cstor9 : Storage :=
  { config := cfg0,
    state := { total_staked := 2, current_pot := 0, last_winner := none,
               stakers := ["a"] },
    STAKERS := [("a", { staked_at := 3, nft_count := 2 })] }

/-- Storage cstor9 after one more stake by the same account. -/
def cstor9b : Storage :=
  { cstor9 with
    STAKERS := [("a", { staked_at := 3, nft_count := 3 })],
    state := { cstor9.state with total_staked := 3 } }

/-- Response of the stake on cstor9. -/
def cresp9 : Response :=
  { messages := [], attributes := [("action", "stake"), ("sender", "a")] }

/-- Storage cstor6 with a larger pot, as after later funding. -/
def cstor10 : Storage :=
  { cstor6 with state := { cstor6.state with current_pot := 42 } }


/-- The order on character lists is irreflexive. -/
theorem charListLt_irrefl (l : List Char) : charListLt l l = false := by
  induction l with
  | nil => rfl
  | cons c cs ih => simp [charListLt, ih]

/-- Unfolding lemma for the order on nonempty character lists. -/
theorem charListLt_cons_iff {c d : Char} {cs ds : List Char} :
    charListLt (c :: cs) (d :: ds) = true ↔
      (c.toNat < d.toNat ∨ (c.toNat = d.toNat ∧ charListLt cs ds = true)) := by
  simp only [charListLt]
  by_cases h₁ : c.toNat < d.toNat
  · simp [h₁]
  · by_cases h₂ : d.toNat < c.toNat
    · simp only [if_neg h₁, if_pos h₂]
      constructor
      · intro hf
        exact Bool.noConfusion hf
      · rintro (h | ⟨he, _⟩)
        · exact absurd h h₁
        · exact absurd h₂ (by omega)
    · simp only [if_neg h₁, if_neg h₂]
      constructor
      · intro hr
        exact Or.inr ⟨by omega, hr⟩
      · rintro (h | ⟨_, hr⟩)
        · exact absurd h h₁
        · exact hr

/-- The order on character lists is transitive. -/
theorem charListLt_trans {l₁ l₂ l₃ : List Char}
    (h₁ : charListLt l₁ l₂ = true) (h₂ : charListLt l₂ l₃ = true) :
    charListLt l₁ l₃ = true := by
  induction l₁ generalizing l₂ l₃ with
  | nil =>
    cases l₂ with
    | nil => simp [charListLt] at h₁
    | cons c₂ t₂ =>
      cases l₃ with
      | nil => simp [charListLt] at h₂
      | cons c₃ t₃ => simp [charListLt]
  | cons c₁ t₁ ih =>
    cases l₂ with
    | nil => simp [charListLt] at h₁
    | cons c₂ t₂ =>
      cases l₃ with
      | nil => simp [charListLt] at h₂
      | cons c₃ t₃ =>
        rw [charListLt_cons_iff] at h₁ h₂ ⊢
        rcases h₁ with h₁ | ⟨he₁, h₁⟩ <;> rcases h₂ with h₂ | ⟨he₂, h₂⟩
        · exact Or.inl (by omega)
        · exact Or.inl (by omega)
        · exact Or.inl (by omega)
        · exact Or.inr ⟨by omega, ih h₁ h₂⟩

/-- The order on character lists is asymmetric. -/
theorem charListLt_asymm {l₁ l₂ : List Char}
    (h₁ : charListLt l₁ l₂ = true) (h₂ : charListLt l₂ l₁ = true) : False := by
  have h := charListLt_trans h₁ h₂
  rw [charListLt_irrefl] at h
  exact Bool.noConfusion h

/-- Distinct character lists compare in one direction or the other. -/
theorem charListLt_of_not_lt {l₁ l₂ : List Char} (hne : l₁ ≠ l₂)
    (h : charListLt l₁ l₂ = false) : charListLt l₂ l₁ = true := by
  induction l₁ generalizing l₂ with
  | nil =>
    cases l₂ with
    | nil => exact absurd rfl hne
    | cons c₂ t₂ => simp [charListLt] at h
  | cons c₁ t₁ ih =>
    cases l₂ with
    | nil => simp [charListLt]
    | cons c₂ t₂ =>
      rw [charListLt_cons_iff]
      rcases Nat.lt_trichotomy c₂.toNat c₁.toNat with hlt | heq | hgt
      · exact Or.inl hlt
      · have hc : c₁ = c₂ := Char.ext (UInt32.ext heq.symm)
        subst hc
        refine Or.inr ⟨rfl, ih (fun he => hne (by rw [he])) ?_⟩
        simpa [charListLt] using h
      · exfalso
        have hlt₁ : charListLt (c₁ :: t₁) (c₂ :: t₂) = true := by
          rw [charListLt_cons_iff]
          exact Or.inl hgt
        rw [h] at hlt₁
        exact Bool.noConfusion hlt₁

/-- The address order is irreflexive. -/
theorem addrLt_irrefl (a : Addr) : addrLt a a = false :=
  charListLt_irrefl a.data

/-- The address order is transitive. -/
theorem addrLt_trans {a b c : Addr} (h₁ : addrLt a b = true)
    (h₂ : addrLt b c = true) : addrLt a c = true :=
  charListLt_trans h₁ h₂

/-- The address order is asymmetric. -/
theorem addrLt_asymm {a b : Addr} (h₁ : addrLt a b = true)
    (h₂ : addrLt b a = true) : False :=
  charListLt_asymm h₁ h₂

/-- Distinct addresses compare in one direction or the other. -/
theorem addrLt_of_not_lt {a b : Addr} (hne : a ≠ b) (h : addrLt a b = false) :
    addrLt b a = true :=
  charListLt_of_not_lt (fun hd => hne (String.ext hd)) h

/-- A successful lookup means the pair is in the list. -/
theorem mapGet_mem {m : StakersMap} {k : Addr} {r : Staker}
    (h : mapGet m k = some r) : (k, r) ∈ m := by
  induction m with
  | nil => simp [mapGet] at h
  | cons hd tl ih =>
    obtain ⟨k₁, v₁⟩ := hd
    simp only [mapGet] at h
    by_cases heq : k = k₁
    · rw [if_pos heq] at h
      injection h with hr
      subst heq
      subst hr
      exact List.mem_cons_self _ _
    · rw [if_neg heq] at h
      exact List.mem_cons_of_mem _ (ih h)

/-- Looking up the key just saved yields the saved record. -/
theorem mapGet_mapSave_self (m : StakersMap) (k : Addr) (v : Staker) :
    mapGet (mapSave m k v) k = some v := by
  induction m with
  | nil => simp [mapSave, mapGet]
  | cons hd tl ih =>
    obtain ⟨k₁, v₁⟩ := hd
    by_cases heq : k = k₁
    · simp [mapSave, heq, addrLt_irrefl, mapGet]
    · cases hB : addrLt k k₁ with
      | true => simp [mapSave, hB, mapGet]
      | false => simp [mapSave, hB, heq, mapGet, ih]

/-- Saving a key leaves every other key's lookup unchanged. -/
theorem mapGet_mapSave_ne (m : StakersMap) {k k₁ : Addr} (v : Staker)
    (hne : k₁ ≠ k) : mapGet (mapSave m k v) k₁ = mapGet m k₁ := by
  induction m with
  | nil => simp [mapSave, mapGet, hne]
  | cons hd tl ih =>
    obtain ⟨k₂, v₂⟩ := hd
    by_cases heq : k = k₂
    · simp [mapSave, heq, addrLt_irrefl, mapGet, heq ▸ hne]
    · cases hB : addrLt k k₂ with
      | true => simp [mapSave, hB, mapGet, hne]
      | false => simp [mapSave, hB, heq, mapGet, ih]

/-- Every member of a saved map is the saved pair or an original member. -/
theorem mem_mapSave {m : StakersMap} {k : Addr} {v : Staker} {x : Addr × Staker}
    (h : x ∈ mapSave m k v) : x = (k, v) ∨ x ∈ m := by
  induction m with
  | nil =>
    simp only [mapSave] at h
    exact Or.inl (List.mem_singleton.mp h)
  | cons hd tl ih =>
    obtain ⟨k₁, v₁⟩ := hd
    cases hB : addrLt k k₁ with
    | true =>
      simp only [mapSave, hB, if_true] at h
      simp only [List.mem_cons] at h ⊢
      tauto
    | false =>
      by_cases heq : k = k₁
      · simp only [mapSave, hB, Bool.false_eq_true, if_false, if_pos heq] at h
        simp only [List.mem_cons] at h ⊢
        tauto
      · simp only [mapSave, hB, Bool.false_eq_true, if_false, if_neg heq] at h
        simp only [List.mem_cons] at h ⊢
        rcases h with h | h
        · tauto
        · rcases ih h with h₁ | h₁ <;> tauto

/-- Removal produces a sublist. -/
theorem mapRemove_sublist (m : StakersMap) (k : Addr) :
    (mapRemove m k).Sublist m := by
  induction m with
  | nil => simp [mapRemove]
  | cons hd tl ih =>
    obtain ⟨k₁, v₁⟩ := hd
    by_cases heq : k = k₁
    · simp only [mapRemove, if_pos heq]
      exact List.sublist_cons_self _ _
    · simp only [mapRemove, if_neg heq]
      exact List.Sublist.cons₂ _ ih

/-- Removal keeps the map sorted. -/
theorem mapSorted_mapRemove {m : StakersMap} (k : Addr) (hs : mapSorted m) :
    mapSorted (mapRemove m k) :=
  List.Pairwise.sublist (mapRemove_sublist m k) hs

/-- Saving keeps the map sorted. -/
theorem mapSorted_mapSave {m : StakersMap} (k : Addr) (v : Staker)
    (hs : mapSorted m) : mapSorted (mapSave m k v) := by
  induction m with
  | nil => simp [mapSave, mapSorted]
  | cons hd tl ih =>
    obtain ⟨k₁, v₁⟩ := hd
    simp only [mapSorted, List.pairwise_cons] at hs
    obtain ⟨hhd, htl⟩ := hs
    cases hB : addrLt k k₁ with
    | true =>
      simp only [mapSave, hB, if_true, mapSorted, List.pairwise_cons]
      refine ⟨?_, hhd, htl⟩
      intro x hx
      rcases List.mem_cons.mp hx with hx | hx
      · rw [hx]
        exact hB
      · exact addrLt_trans hB (hhd x hx)
    | false =>
      by_cases heq : k = k₁
      · subst heq
        simp only [mapSave, hB, Bool.false_eq_true, if_false, eq_self_iff_true,
          if_true, mapSorted, List.pairwise_cons]
        exact ⟨hhd, htl⟩
      · simp only [mapSave, hB, Bool.false_eq_true, if_false, if_neg heq,
          mapSorted, List.pairwise_cons]
        refine ⟨?_, ih htl⟩
        intro x hx
        rcases mem_mapSave hx with hx₁ | hx₁
        · rw [hx₁]
          exact addrLt_of_not_lt heq hB
        · exact hhd x hx₁

/-- Sum over a cons cell. -/
theorem sumNfts_cons (k : Addr) (v : Staker) (m : StakersMap) :
    sumNfts ((k, v) :: m) = v.nft_count + sumNfts m := by
  simp [sumNfts]

/-- Saving a fresh key adds its count to the sum. -/
theorem sumNfts_mapSave_of_none {m : StakersMap} {k : Addr} (v : Staker)
    (h : mapGet m k = none) :
    sumNfts (mapSave m k v) = sumNfts m + v.nft_count := by
  induction m with
  | nil => simp [mapSave, sumNfts]
  | cons hd tl ih =>
    obtain ⟨k₁, v₁⟩ := hd
    simp only [mapGet] at h
    by_cases heq : k = k₁
    · simp [heq] at h
    · rw [if_neg heq] at h
      cases hB : addrLt k k₁ with
      | true =>
        simp only [mapSave, hB, if_true, sumNfts_cons]
        omega
      | false =>
        simp only [mapSave, hB, Bool.false_eq_true, if_false, if_neg heq,
          sumNfts_cons, ih h]
        omega

/-- Replacing an existing key swaps its count for the new one in the sum
(the map must be sorted so that the key occurs only once). -/
theorem sumNfts_mapSave_of_some {m : StakersMap} {k : Addr} {r : Staker}
    (v : Staker) (hs : mapSorted m) (h : mapGet m k = some r) :
    sumNfts (mapSave m k v) + r.nft_count = sumNfts m + v.nft_count := by
  induction m with
  | nil => simp [mapGet] at h
  | cons hd tl ih =>
    obtain ⟨k₁, v₁⟩ := hd
    simp only [mapSorted, List.pairwise_cons] at hs
    obtain ⟨hhd, htl⟩ := hs
    simp only [mapGet] at h
    by_cases heq : k = k₁
    · rw [if_pos heq] at h
      injection h with hr
      subst heq
      have hB : addrLt k k = false := addrLt_irrefl k
      simp only [mapSave, hB, Bool.false_eq_true, if_false, eq_self_iff_true,
        if_true, sumNfts_cons, hr]
      omega
    · rw [if_neg heq] at h
      cases hB : addrLt k k₁ with
      | true =>
        exfalso
        exact addrLt_asymm hB (hhd _ (mapGet_mem h))
      | false =>
        simp only [mapSave, hB, Bool.false_eq_true, if_false, if_neg heq,
          sumNfts_cons]
        have := ih htl h
        omega

/-- Removing an existing key subtracts its count from the sum. -/
theorem sumNfts_mapRemove {m : StakersMap} {k : Addr} {r : Staker}
    (h : mapGet m k = some r) :
    sumNfts (mapRemove m k) + r.nft_count = sumNfts m := by
  induction m with
  | nil => simp [mapGet] at h
  | cons hd tl ih =>
    obtain ⟨k₁, v₁⟩ := hd
    simp only [mapGet] at h
    by_cases heq : k = k₁
    · rw [if_pos heq] at h
      injection h with hr
      simp only [mapRemove, if_pos heq, sumNfts_cons, hr]
      omega
    · rw [if_neg heq] at h
      simp only [mapRemove, if_neg heq, sumNfts_cons]
      have := ih h
      omega

/-- Inverting a successful checked addition. -/
theorem u64CheckedAdd_some {a b n : Nat} (h : u64CheckedAdd a b = some n) :
    n = a + b := by
  unfold u64CheckedAdd at h
  split at h
  · injection h with h₁
    exact h₁.symm
  · exact Option.noConfusion h

/-- Inverting a successful checked subtraction. -/
theorem u64CheckedSub_some {a b n : Nat} (h : u64CheckedSub a b = some n) :
    b ≤ a ∧ n = a - b := by
  unfold u64CheckedSub at h
  split at h
  · rename_i hc
    injection h with h₁
    exact ⟨hc, h₁.symm⟩
  · exact Option.noConfusion h

/-- Shape of a successful stake: the storage it produces. -/
theorem execute_stake_ok_inv {stor stor₁ : Storage} {resp : Response}
    {bt : Nat} {sender : Addr}
    (h : execute_stake stor bt sender = .ok (stor₁, resp)) :
    stor₁ = { stor with
      STAKERS := mapSave stor.STAKERS sender
        { staked_at := ((mapGet stor.STAKERS sender).getD
            { staked_at := bt, nft_count := 0 }).staked_at,
          nft_count := ((mapGet stor.STAKERS sender).getD
            { staked_at := bt, nft_count := 0 }).nft_count + 1 },
      state := { stor.state with
        stakers := hsInsert stor.state.stakers sender,
        total_staked := stor.state.total_staked + 1 } } := by
  simp only [execute_stake] at h
  split at h
  · exact Outcome.noConfusion h
  · rename_i n hn
    split at h
    · exact Outcome.noConfusion h
    · rename_i t ht
      have hn' := u64CheckedAdd_some hn
      have ht' := u64CheckedAdd_some ht
      subst hn'
      subst ht'
      simp only [Outcome.ok.injEq, Prod.mk.injEq] at h
      exact h.1.symm

/-- Shape of a successful unstake: the record that existed, the bounds the
checked arithmetic certifies, and the storage it produces. -/
theorem execute_unstake_ok_inv {stor stor₁ : Storage} {resp : Response}
    {bt : Nat} {sender : Addr}
    (h : execute_unstake stor bt sender = .ok (stor₁, resp)) :
    ∃ staker, mapGet stor.STAKERS sender = some staker ∧
      1 ≤ staker.nft_count ∧
      1 ≤ stor.state.total_staked ∧
      tsSeconds staker.staked_at ≤ tsSeconds bt ∧
      MIN_STAKING_DAYS * SECONDS_IN_DAY ≤ tsSeconds bt - tsSeconds staker.staked_at ∧
      stor₁ = { stor with
        STAKERS := if staker.nft_count - 1 = 0 then mapRemove stor.STAKERS sender
          else mapSave stor.STAKERS sender
            { staked_at := staker.staked_at, nft_count := staker.nft_count - 1 },
        state := { stor.state with
          stakers := hsRemove stor.state.stakers sender,
          total_staked := stor.state.total_staked - 1 } } := by
  simp only [execute_unstake] at h
  split at h
  · exact Outcome.noConfusion h
  · rename_i staker hstaker
    split at h
    · exact Outcome.noConfusion h
    · rename_i td htd
      split at h
      · exact Outcome.noConfusion h
      · rename_i htime
        split at h
        · exact Outcome.noConfusion h
        · rename_i n hn
          split at h
          · exact Outcome.noConfusion h
          · rename_i t ht
            obtain ⟨htd₁, htd₂⟩ := u64CheckedSub_some htd
            obtain ⟨hn₁, hn₂⟩ := u64CheckedSub_some hn
            obtain ⟨ht₁, ht₂⟩ := u64CheckedSub_some ht
            subst htd₂
            subst hn₂
            subst ht₂
            simp only [Outcome.ok.injEq, Prod.mk.injEq] at h
            exact ⟨staker, hstaker, hn₁, ht₁, htd₁, Nat.le_of_not_lt htime,
              h.1.symm⟩

/-- The registry invariant: the record map is sorted and the aggregate
total equals the sum of the per-record counts. -/
def RegInv (stor : Storage) : Prop :=
  mapSorted stor.STAKERS ∧ stor.state.total_staked = sumNfts stor.STAKERS

/-- The freshly instantiated contract satisfies the registry invariant. -/
theorem regInv_init (cfg : Config) : RegInv (initStorage cfg) :=
  ⟨List.Pairwise.nil, rfl⟩

/-- A successful stake preserves the registry invariant. -/
theorem regInv_execute_stake {stor stor₁ : Storage} {resp : Response}
    {bt : Nat} {sender : Addr}
    (h : execute_stake stor bt sender = .ok (stor₁, resp))
    (hinv : RegInv stor) : RegInv stor₁ := by
  obtain ⟨hs, hsum⟩ := hinv
  have h₁ := execute_stake_ok_inv h
  subst h₁
  refine ⟨mapSorted_mapSave _ _ hs, ?_⟩
  cases hm : mapGet stor.STAKERS sender with
  | none =>
    dsimp only
    simp only [hm, Option.getD_none]
    rw [sumNfts_mapSave_of_none _ hm]
    dsimp only
    omega
  | some r =>
    dsimp only
    simp only [hm, Option.getD_some]
    have h₂ := sumNfts_mapSave_of_some
      (v := { staked_at := r.staked_at, nft_count := r.nft_count + 1 }) hs hm
    dsimp only at h₂
    omega

/-- A successful unstake preserves the registry invariant. -/
theorem regInv_execute_unstake {stor stor₁ : Storage} {resp : Response}
    {bt : Nat} {sender : Addr}
    (h : execute_unstake stor bt sender = .ok (stor₁, resp))
    (hinv : RegInv stor) : RegInv stor₁ := by
  obtain ⟨hs, hsum⟩ := hinv
  obtain ⟨staker, hstaker, hc, ht, _, _, h₁⟩ := execute_unstake_ok_inv h
  subst h₁
  by_cases hz : staker.nft_count - 1 = 0
  · refine ⟨?_, ?_⟩
    · dsimp only
      rw [if_pos hz]
      exact mapSorted_mapRemove _ hs
    · dsimp only
      rw [if_pos hz]
      have h₂ := sumNfts_mapRemove hstaker
      omega
  · refine ⟨?_, ?_⟩
    · dsimp only
      rw [if_neg hz]
      exact mapSorted_mapSave _ _ hs
    · dsimp only
      rw [if_neg hz]
      have h₂ := sumNfts_mapSave_of_some
        (v := { staked_at := staker.staked_at, nft_count := staker.nft_count - 1 })
        hs hstaker
      dsimp only at h₂
      omega

/-- One step preserves the registry invariant. -/
theorem regInv_stepOp {stor : Storage} (op : Op) (hinv : RegInv stor) :
    RegInv (stepOp stor op) := by
  cases op with
  | stake sender t =>
    simp only [stepOp]
    split
    · rename_i stor₁ resp hok
      exact regInv_execute_stake hok hinv
    · exact hinv
  | unstake sender t =>
    simp only [stepOp]
    split
    · rename_i stor₁ resp hok
      exact regInv_execute_unstake hok hinv
    · exact hinv

/-- Any run of operations preserves the registry invariant. -/
theorem regInv_runOps {stor : Storage} (ops : List Op) (hinv : RegInv stor) :
    RegInv (runOps stor ops) := by
  induction ops generalizing stor with
  | nil => exact hinv
  | cons op rest ih => exact ih (regInv_stepOp op hinv)

/-- Claim C1 (refuted, code bug): an unstake that leaves nft_count positive
still removes the account from the staked set. After staking twice and
unstaking once (successfully, after seven days), the record remains with
nft_count one, yet the account is no longer a member of state.stakers,
so the membership invariant fails. -/
theorem unstake_partial_removes_account :
    Outcome.isOk (execute_unstake
      (runOps (initStorage cfg0) [Op.stake "a" 0, Op.stake "a" 0])
      WEEK_NANOS "a") = true ∧
    mapGet (runOps (initStorage cfg0)
      [Op.stake "a" 0, Op.stake "a" 0, Op.unstake "a" WEEK_NANOS]).STAKERS "a"
      = some { staked_at := 0, nft_count := 1 } ∧
    "a" ∉ (runOps (initStorage cfg0)
      [Op.stake "a" 0, Op.stake "a" 0, Op.unstake "a" WEEK_NANOS]).state.stakers := by
  decide

/-- Claim C2 (refuted, code bug): two reachable states whose staked sets
have exactly the same members, drawn with the same randomness byte by the
operator, produce different winners, because the draw indexes the hash-set
iteration order rather than an ordering derived from the member set. -/
theorem draw_winner_iteration_order_dependent :
    (runOps (initStorage cfg0) [Op.stake "a" 0, Op.stake "b" 0]).state.stakers.Perm
      (runOps (initStorage cfg0) [Op.stake "b" 0, Op.stake "a" 0]).state.stakers ∧
    drawnWinner (execute_draw_winner
      (runOps (initStorage cfg0) [Op.stake "a" 0, Op.stake "b" 0]) "op" [0])
      = some "a" ∧
    drawnWinner (execute_draw_winner
      (runOps (initStorage cfg0) [Op.stake "b" 0, Op.stake "a" 0]) "op" [0])
      = some "b" := by
  decide

/-- Claim C7 (refuted, code bug): with an existing record and a block time
earlier than staked_at, the holding-time computation underflows and the
handler aborts instead of producing an error of the taxonomy. -/
theorem unstake_time_underflow_aborts :
    mapGet cstor7.STAKERS "b" = some { staked_at := 9000000000, nft_count := 3 } ∧
    execute_unstake cstor7 1000000000 "b" = Outcome.abort := by
  decide

/-- Claim C5 counterexample: the block time (zero) is strictly before
staked_at plus seven days, yet unstake aborts on the u64 underflow instead
of failing with the MinimumPeriodNotMet error. -/
theorem unstake_early_not_always_min_period_err :
    tsSeconds 0 < tsSeconds 5000000000 + MIN_STAKING_DAYS * SECONDS_IN_DAY ∧
    mapGet cstor5.STAKERS "a" = some { staked_at := 5000000000, nft_count := 1 } ∧
    execute_unstake cstor5 0 "a" = Outcome.abort ∧
    execute_unstake cstor5 0 "a"
      ≠ .err (.genericErr "Minimum staking requirement not met") := by
  decide

/-- Claim C4: after any sequence of Stake and Unstake calls starting from
the freshly instantiated contract (failed calls leaving storage untouched),
total_staked equals the sum of nft_count over all records of the STAKERS
map. -/
theorem total_staked_eq_sumNfts (cfg : Config) (ops : List Op) :
    (runOps (initStorage cfg) ops).state.total_staked
      = sumNfts (runOps (initStorage cfg) ops).STAKERS :=
  (regInv_runOps ops (regInv_init cfg)).2

/-- Claim C3: a successful DrawWinner leaves the pot at zero, records as
last_winner an account that was a member of the staked set at draw time,
and reports the pre-reset pot value in the prize attribute. -/
theorem draw_winner_resets_pot_and_picks_member (stor : Storage)
    (sender : Addr) (rb : List Nat) (stor₁ : Storage) (resp : Response)
    (h : execute_draw_winner stor sender rb = .ok (stor₁, resp)) :
    stor₁.state.current_pot = 0 ∧
    (∃ w, stor₁.state.last_winner = some w ∧ w ∈ stor.state.stakers) ∧
    ("prize", toString stor.state.current_pot) ∈ resp.attributes := by
  simp only [execute_draw_winner] at h
  split at h
  · exact Outcome.noConfusion h
  · split at h
    · exact Outcome.noConfusion h
    · split at h
      · exact Outcome.noConfusion h
      · rename_i b rest
        split at h
        · exact Outcome.noConfusion h
        · rename_i winner hwinner
          simp only [Outcome.ok.injEq, Prod.mk.injEq] at h
          obtain ⟨h₁, h₂⟩ := h
          subst h₁
          subst h₂
          exact ⟨rfl, ⟨winner, rfl, List.get?_mem hwinner⟩, by simp⟩

/-- Witness for claim C3's theorem at a concrete draw. -/
theorem draw_winner_resets_pot_and_picks_member_witness :
    cstor3d.state.current_pot = 0 ∧
    ("prize", toString cstor3.state.current_pot) ∈ cresp3.attributes :=
  ⟨(draw_winner_resets_pot_and_picks_member cstor3 "op" [0] cstor3d cresp3
      (by decide)).1,
   (draw_winner_resets_pot_and_picks_member cstor3 "op" [0] cstor3d cresp3
      (by decide)).2.2⟩

/-- Claim C5 (amended): unstake with no record fails with the NotStaked
error; given a record with positive nft_count, positive total_staked and a
block time (in seconds) at or after staked_at, it fails with the
MinimumPeriodNotMet error exactly when the block time is strictly before
staked_at plus seven days, and succeeds at or after that bound. -/
theorem unstake_error_conditions (stor : Storage) (bt : Nat) (sender : Addr) :
    (mapGet stor.STAKERS sender = none →
      execute_unstake stor bt sender = .err (.genericErr "Not staked")) ∧
    (∀ r, mapGet stor.STAKERS sender = some r →
      1 ≤ r.nft_count →
      1 ≤ stor.state.total_staked →
      tsSeconds r.staked_at ≤ tsSeconds bt →
      ((tsSeconds bt < tsSeconds r.staked_at + MIN_STAKING_DAYS * SECONDS_IN_DAY →
        execute_unstake stor bt sender =
          .err (.genericErr "Minimum staking requirement not met")) ∧
       (tsSeconds r.staked_at + MIN_STAKING_DAYS * SECONDS_IN_DAY ≤ tsSeconds bt →
        Outcome.isOk (execute_unstake stor bt sender) = true))) := by
  constructor
  · intro h
    simp [execute_unstake, h]
  · intro r hr hc ht hts
    have hs₁ : u64CheckedSub (tsSeconds bt) (tsSeconds r.staked_at)
        = some (tsSeconds bt - tsSeconds r.staked_at) := by
      simp [u64CheckedSub, hts]
    constructor
    · intro hlt
      simp only [execute_unstake, hr, hs₁]
      rw [if_pos ?_]
      simp only [MIN_STAKING_DAYS, SECONDS_IN_DAY] at hlt ⊢
      omega
    · intro hge
      have hs₂ : u64CheckedSub r.nft_count 1 = some (r.nft_count - 1) := by
        simp [u64CheckedSub, hc]
      have hs₃ : u64CheckedSub stor.state.total_staked 1
          = some (stor.state.total_staked - 1) := by
        simp [u64CheckedSub, ht]
      simp only [execute_unstake, hr, hs₁, hs₂, hs₃]
      rw [if_neg ?_]
      · rfl
      · simp only [MIN_STAKING_DAYS, SECONDS_IN_DAY] at hge ⊢
        omega

/-- Witness for claim C5's theorem: the success branch at exactly the
seven-day bound. -/
theorem unstake_error_conditions_witness :
    Outcome.isOk (execute_unstake cstor5b WEEK_NANOS "a") = true :=
  ((unstake_error_conditions cstor5b WEEK_NANOS "a").2
    { staked_at := 0, nft_count := 1 }
    (by decide) (by decide) (by decide) (by decide)).2 (by decide)

/-- Claim C6: ClaimReward fails with the NoWinnerToClaim error when no
winner is recorded, fails with the NotWinner error when the caller differs
from the recorded winner, and for the recorded winner succeeds, emitting
exactly one transfer message addressed to the reward token contract that
pays the caller the current pot. -/
theorem claim_reward_conditions (stor : Storage) (sender : Addr) :
    (stor.state.last_winner = none →
      execute_claim_reward stor sender = .err (.genericErr "No winner to claim")) ∧
    (∀ w, stor.state.last_winner = some w → sender ≠ w →
      execute_claim_reward stor sender = .err (.genericErr "Not the winner")) ∧
    (stor.state.last_winner = some sender →
      execute_claim_reward stor sender = .ok (stor, claimResponse stor sender) ∧
      (claimResponse stor sender).messages =
        [{ contract_addr := stor.config.reward_token,
           transfer_recipient := sender,
           transfer_amount := stor.state.current_pot,
           funds := [] }]) := by
  refine ⟨?_, ?_, ?_⟩
  · intro h
    simp [execute_claim_reward, h]
  · intro w hw hne
    simp [execute_claim_reward, hw, hne]
  · intro hw
    exact ⟨by simp [execute_claim_reward, hw], rfl⟩

/-- Witness for claim C6's theorem: the recorded winner claims a pot of
nine. -/
theorem claim_reward_conditions_witness :
    execute_claim_reward cstor6 "w" = .ok (cstor6, claimResponse cstor6 "w") ∧
    (claimResponse cstor6 "w").messages =
      [{ contract_addr := "rwd", transfer_recipient := "w",
         transfer_amount := 9, funds := [] }] :=
  (claim_reward_conditions cstor6 "w").2.2 (by decide)

/-- Claim C8: the eligible-stakers query returns exactly the pairs whose
staked_at plus seven days is at or before the block time, in ascending
order of account identity; being a pure function of the storage it mutates
nothing and repeated queries agree. -/
theorem query_eligible_stakers_spec (stor : Storage) (bt : Nat)
    (hs : mapSorted stor.STAKERS) :
    (∀ a r, (a, r) ∈ query_eligible_stakers stor bt ↔
      ((a, r) ∈ stor.STAKERS ∧
        tsPlusSeconds r.staked_at (MIN_STAKING_DAYS * SECONDS_IN_DAY) ≤ bt)) ∧
    mapSorted (query_eligible_stakers stor bt) := by
  constructor
  · intro a r
    simp [query_eligible_stakers, List.mem_filter, eligibleAt]
  · exact List.Pairwise.sublist (List.filter_sublist _) hs

/-- Witness for claim C8's theorem on a concrete two-record storage. -/
theorem query_eligible_stakers_spec_witness :
    (("a", ({ staked_at := 0, nft_count := 1 } : Staker)) ∈
        query_eligible_stakers cstor8 WEEK_NANOS ↔
      (("a", ({ staked_at := 0, nft_count := 1 } : Staker)) ∈ cstor8.STAKERS ∧
        tsPlusSeconds 0 (MIN_STAKING_DAYS * SECONDS_IN_DAY) ≤ WEEK_NANOS)) ∧
    mapSorted (query_eligible_stakers cstor8 WEEK_NANOS) :=
  ⟨(query_eligible_stakers_spec cstor8 WEEK_NANOS
      (by unfold mapSorted; decide)).1 "a" { staked_at := 0, nft_count := 1 },
   (query_eligible_stakers_spec cstor8 WEEK_NANOS
      (by unfold mapSorted; decide)).2⟩

/-- Claim C9: a stake by an account that already has a record increments
its nft_count and leaves staked_at unchanged. -/
theorem stake_existing_keeps_staked_at (stor : Storage) (bt : Nat)
    (sender : Addr) (r : Staker) (stor₁ : Storage) (resp : Response)
    (hr : mapGet stor.STAKERS sender = some r)
    (h : execute_stake stor bt sender = .ok (stor₁, resp)) :
    mapGet stor₁.STAKERS sender =
      some { staked_at := r.staked_at, nft_count := r.nft_count + 1 } := by
  have h₁ := execute_stake_ok_inv h
  subst h₁
  dsimp only
  rw [hr]
  exact mapGet_mapSave_self _ _ _

/-- Witness for claim C9's theorem: a second stake by an existing staker. -/
theorem stake_existing_keeps_staked_at_witness :
    mapGet cstor9b.STAKERS "a" = some { staked_at := 3, nft_count := 3 } :=
  stake_existing_keeps_staked_at cstor9 99 "a" { staked_at := 3, nft_count := 2 }
    cstor9b cresp9 (by decide) (by decide)

/-- Claim C10: a successful ClaimReward leaves the whole storage unchanged,
implies the caller is the recorded winner, and any later claim by the same
caller in any storage that still records that winner succeeds again,
paying whatever the pot holds then. -/
theorem claim_reward_writes_nothing (stor : Storage) (sender : Addr)
    (stor₁ : Storage) (resp : Response)
    (h : execute_claim_reward stor sender = .ok (stor₁, resp)) :
    stor₁ = stor ∧
    stor.state.last_winner = some sender ∧
    ∀ stor₂ : Storage, stor₂.state.last_winner = some sender →
      execute_claim_reward stor₂ sender = .ok (stor₂, claimResponse stor₂ sender) ∧
      (claimResponse stor₂ sender).messages =
        [{ contract_addr := stor₂.config.reward_token,
           transfer_recipient := sender,
           transfer_amount := stor₂.state.current_pot,
           funds := [] }] := by
  have hmain : stor₁ = stor ∧ stor.state.last_winner = some sender := by
    simp only [execute_claim_reward] at h
    split at h
    · exact Outcome.noConfusion h
    · rename_i w hw
      split at h
      · exact Outcome.noConfusion h
      · rename_i hne
        have hsw : sender = w := not_not.mp hne
        subst hsw
        simp only [Outcome.ok.injEq, Prod.mk.injEq] at h
        exact ⟨h.1.symm, hw⟩
  refine ⟨hmain.1, hmain.2, ?_⟩
  intro stor₂ hw₂
  exact ⟨by simp [execute_claim_reward, hw₂], rfl⟩

/-- Witness for claim C10's theorem: after a successful claim, the same
caller claims again from a storage whose pot grew to forty-two. -/
theorem claim_reward_writes_nothing_witness :
    cstor6.state.last_winner = some "w" ∧
    (execute_claim_reward cstor10 "w" = .ok (cstor10, claimResponse cstor10 "w") ∧
     (claimResponse cstor10 "w").messages =
       [{ contract_addr := "rwd", transfer_recipient := "w",
          transfer_amount := 42, funds := [] }]) :=
  ⟨(claim_reward_writes_nothing cstor6 "w" cstor6 (claimResponse cstor6 "w")
      (by decide)).2.1,
   (claim_reward_writes_nothing cstor6 "w" cstor6 (claimResponse cstor6 "w")
      (by decide)).2.2 cstor10 (by decide)⟩

end BurnAtTheStake
